import Mathlib

/-!
Verification of the solar-system simulator's camera gesture state machine
(`camera.py`), orbital position update (`planet.py`) and parent-link
resolution pass (`main.py`).  Machine floats are modelled as real numbers,
`pygame.Vector2` as a pair of reals, and the Python `dict` of active touches
as an insertion-ordered association list.
-/

noncomputable section

namespace SolarSim

/-- `pygame.Vector2`: a 2D vector with real components. -/
@[ext] structure Vec2 where
  x : ℝ
  y : ℝ

def Vec2.add (a b : Vec2) : Vec2 := ⟨a.x + b.x, a.y + b.y⟩

instance : Add Vec2 := ⟨Vec2.add⟩

def Vec2.sub (a b : Vec2) : Vec2 := ⟨a.x - b.x, a.y - b.y⟩

instance : Sub Vec2 := ⟨Vec2.sub⟩

def Vec2.neg (a : Vec2) : Vec2 := ⟨-a.x, -a.y⟩

instance : Neg Vec2 := ⟨Vec2.neg⟩

/-- Vector times scalar, `v * r` in pygame. -/
def Vec2.scale (v : Vec2) (r : ℝ) : Vec2 := ⟨v.x * r, v.y * r⟩

/-- Vector divided by scalar, `v / r` in pygame. -/
def Vec2.sdiv (v : Vec2) (r : ℝ) : Vec2 := ⟨v.x / r, v.y / r⟩

/-- `Vector2.distance_to`: Euclidean distance. -/
def Vec2.distance_to (a b : Vec2) : ℝ :=
  Real.sqrt ((a.x - b.x) ^ 2 + (a.y - b.y) ^ 2)

@[simp] lemma Vec2.add_def (a b : Vec2) : a + b = ⟨a.x + b.x, a.y + b.y⟩ := rfl

@[simp] lemma Vec2.sub_def (a b : Vec2) : a - b = ⟨a.x - b.x, a.y - b.y⟩ := rfl

@[simp] lemma Vec2.neg_def (a : Vec2) : -a = ⟨-a.x, -a.y⟩ := rfl

/--
Events consumed by `Camera.handle_event`.  Finger events carry the pygame
normalized coordinates `event.x`, `event.y` and a `finger_id`; mouse events
carry a button number and/or a screen position; `other` stands for any event
type the camera does not inspect (e.g. `QUIT`).
-/
inductive Ev
  | fingerDown (fid : Nat) (ex ey : ℝ)
  | fingerUp (fid : Nat) (ex ey : ℝ)
  | fingerMotion (fid : Nat) (ex ey : ℝ)
  | mouseButtonDown (button : Nat) (pos : Vec2)
  | mouseButtonUp (button : Nat) (pos : Vec2)
  | mouseMotion (rel : Vec2)
  | other

/-! ### Python `dict[int, Vector2]` as an insertion-ordered association list -/

/-- `k in d` for a Python dict. -/
def dictHas (t : List (Nat × Vec2)) (k : Nat) : Bool :=
  t.any (fun q => q.1 = k)

/-- `d.get(k)` for a Python dict. -/
def dictGet (t : List (Nat × Vec2)) (k : Nat) : Option Vec2 :=
  (t.find? (fun q => q.1 = k)).map (fun q => q.2)

/-- `d[k] = v`: updates in place if the key exists (keeping insertion order),
otherwise appends. -/
def dictSet (t : List (Nat × Vec2)) (k : Nat) (v : Vec2) : List (Nat × Vec2) :=
  if dictHas t k then t.map (fun q => if q.1 = k then (k, v) else q)
  else t ++ [(k, v)]

/-- `del d[k]`. -/
def dictDel (t : List (Nat × Vec2)) (k : Nat) : List (Nat × Vec2) :=
  t.filter (fun q => q.1 ≠ k)

/-- `list(d.values())` in insertion order. -/
def dictValues (t : List (Nat × Vec2)) : List Vec2 :=
  t.map (fun q => q.2)

/-! ### Camera (`camera.py`) -/

/-- State of `Camera`. `dragging` is the private `_dragging`,
`last_mouse_pos` the private `_last_mouse_pos`. -/
structure Camera where
  min_zoom : ℝ
  max_zoom : ℝ
  zoom_sensitivity : ℝ
  position : Vec2
  zoom : ℝ
  pan_enabled : Bool
  dragging : Bool
  last_mouse_pos : Vec2
  touches : List (Nat × Vec2)
  last_pinch_dist : Option ℝ
  is_dragging : Bool

/-- `Camera.__init__(min_zoom, max_zoom, zoom_sensitivity)`. -/
def Camera.init (min_zoom max_zoom zoom_sensitivity : ℝ) : Camera :=
  { min_zoom := min_zoom
    max_zoom := max_zoom
    zoom_sensitivity := zoom_sensitivity
    position := ⟨0, 0⟩
    zoom := 1
    pan_enabled := true
    dragging := false
    last_mouse_pos := ⟨0, 0⟩
    touches := []
    last_pinch_dist := none
    is_dragging := false }

/-- `Camera._apply_zoom_around_point(new_zoom, screen_point)`; `screen` is the
current display size returned by `_screen_size()`. -/
def Camera.applyZoomAroundPoint (c : Camera) (new_zoom : ℝ) (screen_point : Vec2)
    (screen : Vec2) : Camera :=
  let screen_center : Vec2 := ⟨screen.x / 2, screen.y / 2⟩
  let world_before := (screen_point - screen_center).sdiv c.zoom + c.position
  let zoom1 := max c.min_zoom (min c.max_zoom new_zoom)
  { c with zoom := zoom1
           position := world_before - (screen_point - screen_center).sdiv zoom1 }

/-- `Camera._pan_with_delta(rel)`. -/
def Camera.panWithDelta (c : Camera) (rel : Vec2) : Camera :=
  let zoom_factor := max c.zoom 0.05
  let move := rel.scale (3 / zoom_factor)
  { c with position := c.position - move }

/-- `Camera._handle_finger_down(event)`. -/
def Camera.handleFingerDown (c : Camera) (fid : Nat) (ex ey : ℝ) (screen : Vec2) :
    Camera :=
  let pos : Vec2 := ⟨ex * screen.x, ey * screen.y⟩
  let touches1 := dictSet c.touches fid pos
  let c1 := { c with touches := touches1 }
  if touches1.length = 1 then
    { c1 with dragging := true, is_dragging := true, last_mouse_pos := pos }
  else if touches1.length = 2 then
    let fingers := dictValues touches1
    let d0 := (fingers.getD 0 ⟨0, 0⟩).distance_to (fingers.getD 1 ⟨0, 0⟩)
    { c1 with last_pinch_dist := some d0 }
  else c1

/-- `Camera._handle_finger_up(event)`. -/
def Camera.handleFingerUp (c : Camera) (fid : Nat) : Camera :=
  let touches1 := if dictHas c.touches fid then dictDel c.touches fid else c.touches
  let c1 := { c with touches := touches1 }
  if touches1.length = 0 then
    { c1 with dragging := false, is_dragging := false, last_pinch_dist := none }
  else if touches1.length = 1 then
    { c1 with last_mouse_pos := (dictValues touches1).getD 0 ⟨0, 0⟩
              last_pinch_dist := none }
  else c1

/-- `Camera._handle_finger_motion(event)`. -/
def Camera.handleFingerMotion (c : Camera) (fid : Nat) (ex ey : ℝ) (screen : Vec2) :
    Camera :=
  let new_pos : Vec2 := ⟨ex * screen.x, ey * screen.y⟩
  let old_pos := (dictGet c.touches fid).getD new_pos
  let touches1 := dictSet c.touches fid new_pos
  let c1 := { c with touches := touches1 }
  if touches1.length = 1 then
    ({ c1 with dragging := true, is_dragging := true }).panWithDelta (new_pos - old_pos)
  else if touches1.length = 2 then
    let fingers := dictValues touches1
    let p1 := fingers.getD 0 ⟨0, 0⟩
    let p2 := fingers.getD 1 ⟨0, 0⟩
    let new_dist := p1.distance_to p2
    let c2 :=
      match c1.last_pinch_dist with
      | some d =>
        if 0 < d then
          let dr := new_dist / d
          if 1.01 < dr then
            c1.applyZoomAroundPoint (c1.zoom * 0.9) ((p1 + p2).sdiv 2) screen
          else if dr < 0.99 then
            c1.applyZoomAroundPoint (c1.zoom * 1.1) ((p1 + p2).sdiv 2) screen
          else c1
        else c1
      | none => c1
    { c2 with last_pinch_dist := some new_dist }
  else c1

/-- `Camera.handle_event(event)`.  Finger events are dispatched first; while
any touch is active every mouse event falls into the early `return`. -/
def Camera.handle_event (c : Camera) (e : Ev) (screen : Vec2) : Camera :=
  match e with
  | .fingerDown fid ex ey => c.handleFingerDown fid ex ey screen
  | .fingerUp fid _ _ => c.handleFingerUp fid
  | .fingerMotion fid ex ey => c.handleFingerMotion fid ex ey screen
  | .mouseButtonDown button pos =>
    match c.touches with
    | _ :: _ => c
    | [] =>
      if button = 3 ∧ c.pan_enabled then
        { c with dragging := true, is_dragging := true, last_mouse_pos := pos }
      else if button = 4 then
        c.applyZoomAroundPoint (c.zoom * 0.9) pos screen
      else if button = 5 then
        c.applyZoomAroundPoint (c.zoom * 1.1) pos screen
      else c
  | .mouseButtonUp button _ =>
    match c.touches with
    | _ :: _ => c
    | [] =>
      if button = 3 then { c with dragging := false, is_dragging := false } else c
  | .mouseMotion rel =>
    match c.touches with
    | _ :: _ => c
    | [] =>
      if c.dragging ∧ c.pan_enabled then c.panWithDelta rel else c
  | .other => c

/-- Delivering a sequence of events to `handle_event`, in order. -/
def Camera.run (c : Camera) (evs : List Ev) (screen : Vec2) : Camera :=
  evs.foldl (fun st e => st.handle_event e screen) c

/-- Number of `FINGERDOWN` events in a sequence. -/
def countDowns : List Ev → Nat
  | [] => 0
  | .fingerDown _ _ _ :: r => countDowns r + 1
  | _ :: r => countDowns r

/-- Number of `FINGERUP` events in a sequence. -/
def countUps : List Ev → Nat
  | [] => 0
  | .fingerUp _ _ _ :: r => countUps r + 1
  | _ :: r => countUps r

/-! ### Planet (`planet.py`) -/

/-- State of `Planet`.  `parent` holds a snapshot of the parent body (the
source stores a mutable reference); `image` abstracts the optional
`pygame.Surface`. -/
structure Planet where
  planet_name : String
  radius_km : ℝ
  a_au : ℝ
  period_days : ℝ
  color : Nat × Nat × Nat
  draw_orbit : Bool
  fact : String
  angle : ℝ
  radius_px : ℝ
  au_to_px : ℝ
  time_scale : ℝ
  position : Vec2
  parent_name : Option String
  parent : Option Planet
  image : Option Unit

/-- Python float `%` for a positive modulus: `a - b * floor(a / b)`. -/
def floatMod (a b : ℝ) : ℝ := a - b * (⌊a / b⌋ : ℤ)

/-- `Planet.update_position(delta)`. -/
def Planet.update_position (p : Planet) (delta : ℝ) : Planet :=
  if p.period_days ≤ 0 ∨ p.a_au ≤ 0 then
    match p.parent with
    | none => { p with position := ⟨0, 0⟩ }
    | some q => { p with position := q.position }
  else
    let T_real := p.period_days * 86400
    if T_real = 0 then p
    else
      let omega := (2 * Real.pi * p.time_scale) / T_real
      let angle1 := floatMod (p.angle + omega * delta) (2 * Real.pi)
      let r := p.a_au * p.au_to_px
      let rel : Vec2 := ⟨Real.cos angle1 * r, Real.sin angle1 * r⟩
      match p.parent with
      | none => { p with angle := angle1, position := rel }
      | some q => { p with angle := angle1
                           position := ⟨q.position.x + rel.x, q.position.y + rel.y⟩ }

/--
One frame of the main loop (`for p in bodies: p.update_position(dt)`) for a
parent/child pair updated in parent-first order.  In the source the child's
`parent` field is a reference to the parent object, so after the parent
mutates, the child reads the updated parent; with value semantics this is
re-installing the updated parent snapshot before updating the child.
-/
def frameStep (q c : Planet) (dt : ℝ) : Planet × Planet :=
  let q1 := q.update_position dt
  (q1, ({ c with parent := some q1 }).update_position dt)

/-! ### Parent-link resolution (`main.py`, `load_solar_system`, second pass) -/

/-- `by_name = {p.planet_name: p for p in bodies}` followed by
`by_name.get(s)`: the index of the last body with the given name (later dict
insertions override earlier ones). -/
def byNameIdx (bodies : List Planet) (s : String) : Option Nat :=
  ((bodies.enum.filter (fun q => q.2.planet_name = s)).getLast?).map (fun q => q.1)

/--
The link installed for one body by the second pass:
`if getattr(p, "parent_name", None): parent = by_name.get(p.parent_name);
if parent: p.parent = parent`.  An empty string is falsy, so it is skipped.
The source stores a direct object reference; since every such object is an
element of `bodies`, the installed link is modelled as its index (so cyclic
reference chains are representable).
-/
def resolveParent (bodies : List Planet) (p : Planet) : Option Nat :=
  match p.parent_name with
  | none => none
  | some s => if s = "" then none else byNameIdx bodies s

/-- The whole second pass: the parent link installed for each body, in order.
The pass is total — it never rejects its input. -/
def linkPass (bodies : List Planet) : List (Option Nat) :=
  bodies.map (resolveParent bodies)

/-! ### How each handler affects the zoom configuration -/

@[simp] lemma run_nil (c : Camera) (s : Vec2) : c.run [] s = c := rfl

@[simp] lemma run_cons (c : Camera) (e : Ev) (r : List Ev) (s : Vec2) :
    c.run (e :: r) s = (c.handle_event e s).run r s := rfl

lemma handleFingerDown_cfg (c : Camera) (fid : Nat) (ex ey : ℝ) (s : Vec2) :
    (c.handleFingerDown fid ex ey s).min_zoom = c.min_zoom ∧
    (c.handleFingerDown fid ex ey s).max_zoom = c.max_zoom ∧
    (c.handleFingerDown fid ex ey s).zoom = c.zoom := by
  unfold Camera.handleFingerDown
  dsimp only
  repeat' split
  all_goals exact ⟨rfl, rfl, rfl⟩

lemma handleFingerUp_cfg (c : Camera) (fid : Nat) :
    (c.handleFingerUp fid).min_zoom = c.min_zoom ∧
    (c.handleFingerUp fid).max_zoom = c.max_zoom ∧
    (c.handleFingerUp fid).zoom = c.zoom := by
  unfold Camera.handleFingerUp
  dsimp only
  repeat' split
  all_goals exact ⟨rfl, rfl, rfl⟩

lemma handleFingerMotion_cfg (c : Camera) (fid : Nat) (ex ey : ℝ) (s : Vec2) :
    (c.handleFingerMotion fid ex ey s).min_zoom = c.min_zoom ∧
    (c.handleFingerMotion fid ex ey s).max_zoom = c.max_zoom ∧
    ((c.handleFingerMotion fid ex ey s).zoom = c.zoom ∨
      (c.handleFingerMotion fid ex ey s).zoom
        = max c.min_zoom (min c.max_zoom (c.zoom * 0.9)) ∨
      (c.handleFingerMotion fid ex ey s).zoom
        = max c.min_zoom (min c.max_zoom (c.zoom * 1.1))) := by
  unfold Camera.handleFingerMotion
  dsimp only
  repeat' split
  all_goals
    first
      | exact ⟨rfl, rfl, Or.inl rfl⟩
      | exact ⟨rfl, rfl, Or.inr (Or.inl rfl)⟩
      | exact ⟨rfl, rfl, Or.inr (Or.inr rfl)⟩

lemma handle_event_cfg (c : Camera) (e : Ev) (s : Vec2) :
    (c.handle_event e s).min_zoom = c.min_zoom ∧
    (c.handle_event e s).max_zoom = c.max_zoom ∧
    ((c.handle_event e s).zoom = c.zoom ∨
      (c.handle_event e s).zoom = max c.min_zoom (min c.max_zoom (c.zoom * 0.9)) ∨
      (c.handle_event e s).zoom = max c.min_zoom (min c.max_zoom (c.zoom * 1.1))) := by
  cases e with
  | fingerDown fid ex ey =>
    obtain ⟨h1, h2, h3⟩ := handleFingerDown_cfg c fid ex ey s
    exact ⟨h1, h2, Or.inl h3⟩
  | fingerUp fid ex ey =>
    obtain ⟨h1, h2, h3⟩ := handleFingerUp_cfg c fid
    exact ⟨h1, h2, Or.inl h3⟩
  | fingerMotion fid ex ey => exact handleFingerMotion_cfg c fid ex ey s
  | mouseButtonDown button pos =>
    unfold Camera.handle_event
    rcases c with ⟨mn, mx, zs, po, z, pe, dr, lm, tc, lp, isd⟩
    cases tc with
    | cons a t => exact ⟨rfl, rfl, Or.inl rfl⟩
    | nil =>
      dsimp only
      repeat' split
      all_goals
        first
          | exact ⟨rfl, rfl, Or.inl rfl⟩
          | exact ⟨rfl, rfl, Or.inr (Or.inl rfl)⟩
          | exact ⟨rfl, rfl, Or.inr (Or.inr rfl)⟩
  | mouseButtonUp button pos =>
    unfold Camera.handle_event
    rcases c with ⟨mn, mx, zs, po, z, pe, dr, lm, tc, lp, isd⟩
    cases tc with
    | cons a t => exact ⟨rfl, rfl, Or.inl rfl⟩
    | nil =>
      dsimp only
      repeat' split
      all_goals exact ⟨rfl, rfl, Or.inl rfl⟩
  | mouseMotion rel =>
    unfold Camera.handle_event
    rcases c with ⟨mn, mx, zs, po, z, pe, dr, lm, tc, lp, isd⟩
    cases tc with
    | cons a t => exact ⟨rfl, rfl, Or.inl rfl⟩
    | nil =>
      dsimp only
      repeat' split
      all_goals exact ⟨rfl, rfl, Or.inl rfl⟩
  | other => exact ⟨rfl, rfl, Or.inl rfl⟩

/-- Bounds invariant: delivering any event sequence keeps `zoom` within
`[min_zoom, max_zoom]` (and never alters the bounds themselves). -/
lemma run_zoom_bounds (s : Vec2) :
    ∀ (evs : List Ev) (c : Camera), c.min_zoom ≤ c.max_zoom →
      c.min_zoom ≤ c.zoom → c.zoom ≤ c.max_zoom →
      (c.run evs s).min_zoom = c.min_zoom ∧ (c.run evs s).max_zoom = c.max_zoom ∧
      c.min_zoom ≤ (c.run evs s).zoom ∧ (c.run evs s).zoom ≤ c.max_zoom := by
  intro evs
  induction evs with
  | nil => intro c h0 h1 h2; exact ⟨rfl, rfl, h1, h2⟩
  | cons e r ih =>
    intro c h0 h1 h2
    obtain ⟨hm, hM, hz⟩ := handle_event_cfg c e s
    have hb1 : c.min_zoom ≤ (c.handle_event e s).zoom ∧
        (c.handle_event e s).zoom ≤ c.max_zoom := by
      rcases hz with h | h | h
      · rw [h]; exact ⟨h1, h2⟩
      · rw [h]; exact ⟨le_max_left _ _, max_le h0 (min_le_left _ _)⟩
      · rw [h]; exact ⟨le_max_left _ _, max_le h0 (min_le_left _ _)⟩
    have := ih (c.handle_event e s) (by rw [hm, hM]; exact h0)
      (by rw [hm]; exact hb1.1) (by rw [hM]; exact hb1.2)
    rw [run_cons]
    exact ⟨by rw [this.1, hm], by rw [this.2.1, hM],
      by have := this.2.2.1; rwa [hm] at this,
      by have := this.2.2.2; rwa [hM] at this⟩

/-- Positivity invariant: if `min_zoom` is positive and the current zoom is
positive, any event sequence keeps the zoom positive. -/
lemma run_zoom_pos (s : Vec2) :
    ∀ (evs : List Ev) (c : Camera), 0 < c.min_zoom → 0 < c.zoom →
      0 < (c.run evs s).zoom := by
  intro evs
  induction evs with
  | nil => intro c h0 h1; exact h1
  | cons e r ih =>
    intro c h0 h1
    obtain ⟨hm, _, hz⟩ := handle_event_cfg c e s
    have hpos : 0 < (c.handle_event e s).zoom := by
      rcases hz with h | h | h
      · rw [h]; exact h1
      · rw [h]; exact lt_of_lt_of_le h0 (le_max_left _ _)
      · rw [h]; exact lt_of_lt_of_le h0 (le_max_left _ _)
    rw [run_cons]
    exact ih (c.handle_event e s) (by rw [hm]; exact h0) hpos

/-! ### Dictionary lemmas for the touch-set invariant -/

lemma dictHas_iff_mem (t : List (Nat × Vec2)) (k : Nat) :
    dictHas t k = true ↔ k ∈ t.map Prod.fst := by
  simp [dictHas, List.any_eq_true, List.mem_map]

lemma length_dictSet_mem (t : List (Nat × Vec2)) (k : Nat) (v : Vec2)
    (h : dictHas t k = true) : (dictSet t k v).length = t.length := by
  simp [dictSet, h]

lemma length_dictSet_not (t : List (Nat × Vec2)) (k : Nat) (v : Vec2)
    (h : dictHas t k = false) : (dictSet t k v).length = t.length + 1 := by
  simp [dictSet, h]

lemma keys_dictSet_mem (t : List (Nat × Vec2)) (k : Nat) (v : Vec2)
    (h : dictHas t k = true) :
    (dictSet t k v).map Prod.fst = t.map Prod.fst := by
  simp only [dictSet, h, if_true, List.map_map]
  refine List.map_congr_left ?_
  intro q _
  by_cases hq : q.1 = k
  · simp [hq]
  · simp [hq]

lemma keys_dictSet_not (t : List (Nat × Vec2)) (k : Nat) (v : Vec2)
    (h : dictHas t k = false) :
    (dictSet t k v).map Prod.fst = t.map Prod.fst ++ [k] := by
  simp [dictSet, h]

lemma keys_dictDel (t : List (Nat × Vec2)) (k : Nat) :
    (dictDel t k).map Prod.fst = (t.map Prod.fst).filter (fun a => a ≠ k) := by
  induction t with
  | nil => rfl
  | cons q r ih =>
    by_cases hq : q.1 = k
    · simp [dictDel, hq] at ih ⊢
      exact ih
    · simp [dictDel, hq] at ih ⊢
      exact ih

lemma filter_ne_length (l : List Nat) (k : Nat) (hnd : l.Nodup) (hk : k ∈ l) :
    (l.filter (fun a => a ≠ k)).length + 1 = l.length := by
  induction l with
  | nil => cases hk
  | cons a r ih =>
    obtain ⟨ha, hr⟩ := List.nodup_cons.mp hnd
    rw [List.filter_cons]
    by_cases h : a = k
    · subst h
      have hfalse : (decide (a ≠ a)) = false := by simp
      have hnone : r.filter (fun b => b ≠ a) = r := by
        apply List.filter_eq_self.mpr
        intro b hb
        simp only [decide_eq_true_eq]
        intro hba
        exact ha (hba ▸ hb)
      have hred : (if (decide (a ≠ a)) = true then a :: r.filter (fun b => b ≠ a)
          else r.filter (fun b => b ≠ a)) = r.filter (fun b => b ≠ a) := by
        rw [hfalse]
        simp
      rw [hred, hnone, List.length_cons]
    · have htrue : (decide (a ≠ k)) = true := by simp [h]
      have hk' : k ∈ r := by
        rcases List.mem_cons.mp hk with h1 | h1
        · exact absurd h1.symm h
        · exact h1
      have hrec := ih hr hk'
      rw [htrue]
      simp only [if_true, List.length_cons]
      omega

lemma length_dictDel_mem (t : List (Nat × Vec2)) (k : Nat)
    (hnd : (t.map Prod.fst).Nodup) (hk : k ∈ t.map Prod.fst) :
    (dictDel t k).length + 1 = t.length := by
  have h1 : (dictDel t k).length
      = ((t.map Prod.fst).filter (fun a => a ≠ k)).length := by
    rw [← List.length_map (dictDel t k) Prod.fst, keys_dictDel]
  rw [h1, filter_ne_length _ _ hnd hk, List.length_map]

/-! ### Touch-set invariant -/

/-- Invariant maintained by admissible touch sequences: touch ids are
distinct, at most two touches are active, and the pinch baseline is set only
while exactly two touches are active. -/
def TouchInv (c : Camera) : Prop :=
  (c.touches.map Prod.fst).Nodup ∧ c.touches.length ≤ 2 ∧
  (c.last_pinch_dist ≠ none → c.touches.length = 2)

lemma down_touches (c : Camera) (fid : Nat) (ex ey : ℝ) (s : Vec2) :
    (c.handleFingerDown fid ex ey s).touches
      = dictSet c.touches fid ⟨ex * s.x, ey * s.y⟩ := by
  unfold Camera.handleFingerDown
  dsimp only
  repeat' split
  all_goals rfl

lemma down_pinch (c : Camera) (fid : Nat) (ex ey : ℝ) (s : Vec2) :
    (c.handleFingerDown fid ex ey s).last_pinch_dist = c.last_pinch_dist ∨
    ((dictSet c.touches fid ⟨ex * s.x, ey * s.y⟩).length = 2 ∧
      ∃ nd, (c.handleFingerDown fid ex ey s).last_pinch_dist = some nd) := by
  unfold Camera.handleFingerDown
  dsimp only
  split
  · left; rfl
  · split
    · next h2 => right; exact ⟨h2, _, rfl⟩
    · left; rfl

lemma up_touches (c : Camera) (fid : Nat) (hhas : dictHas c.touches fid = true) :
    (c.handleFingerUp fid).touches = dictDel c.touches fid := by
  unfold Camera.handleFingerUp
  dsimp only
  rw [if_pos hhas]
  repeat' split
  all_goals rfl

lemma up_pinch (c : Camera) (fid : Nat) (hhas : dictHas c.touches fid = true) :
    (c.handleFingerUp fid).last_pinch_dist = none ∨
    ((c.handleFingerUp fid).last_pinch_dist = c.last_pinch_dist ∧
      ¬(dictDel c.touches fid).length = 0 ∧ ¬(dictDel c.touches fid).length = 1) := by
  unfold Camera.handleFingerUp
  dsimp only
  rw [if_pos hhas]
  split
  · left; rfl
  · split
    · left; rfl
    · next h1 h2 => right; exact ⟨rfl, h1, h2⟩

lemma motion_touches (c : Camera) (fid : Nat) (ex ey : ℝ) (s : Vec2) :
    (c.handleFingerMotion fid ex ey s).touches
      = dictSet c.touches fid ⟨ex * s.x, ey * s.y⟩ := by
  unfold Camera.handleFingerMotion
  dsimp only
  repeat' split
  all_goals rfl

lemma motion_pinch (c : Camera) (fid : Nat) (ex ey : ℝ) (s : Vec2) :
    (c.handleFingerMotion fid ex ey s).last_pinch_dist = c.last_pinch_dist ∨
    ((dictSet c.touches fid ⟨ex * s.x, ey * s.y⟩).length = 2 ∧
      ∃ nd, (c.handleFingerMotion fid ex ey s).last_pinch_dist = some nd) := by
  unfold Camera.handleFingerMotion
  dsimp only
  split
  · left; rfl
  · split
    · next h2 => right; exact ⟨h2, _, rfl⟩
    · left; rfl

lemma fingerDown_step (c : Camera) (fid : Nat) (ex ey : ℝ) (s : Vec2)
    (hhas : dictHas c.touches fid = false) (hlen : c.touches.length ≤ 1)
    (hinv : TouchInv c) :
    TouchInv (c.handleFingerDown fid ex ey s) ∧
    (c.handleFingerDown fid ex ey s).touches.length = c.touches.length + 1 := by
  obtain ⟨hnd, hl2, hp⟩ := hinv
  have hlen1 : (dictSet c.touches fid ⟨ex * s.x, ey * s.y⟩).length
      = c.touches.length + 1 := length_dictSet_not _ _ _ hhas
  have hnd1 : ((dictSet c.touches fid ⟨ex * s.x, ey * s.y⟩).map Prod.fst).Nodup := by
    rw [keys_dictSet_not _ _ _ hhas]
    refine List.Nodup.append hnd (List.nodup_singleton fid) ?_
    intro a ha hb
    rw [List.mem_singleton] at hb
    subst hb
    exact absurd ((dictHas_iff_mem _ _).mpr ha) (by simp [hhas])
  have ht := down_touches c fid ex ey s
  refine ⟨⟨by rw [ht]; exact hnd1, by rw [ht]; omega, ?_⟩, by rw [ht]; omega⟩
  rcases down_pinch c fid ex ey s with hpc | ⟨h2, nd, hpc⟩
  · rw [hpc, ht]
    intro hne
    have := hp hne
    omega
  · rw [ht]
    exact fun _ => h2

lemma fingerUp_step (c : Camera) (fid : Nat) (ex ey : ℝ)
    (hhas : dictHas c.touches fid = true) (hinv : TouchInv c) :
    TouchInv (c.handleFingerUp fid) ∧
    (c.handleFingerUp fid).touches.length + 1 = c.touches.length := by
  obtain ⟨hnd, hl2, hp⟩ := hinv
  have hmem : fid ∈ c.touches.map Prod.fst := (dictHas_iff_mem _ _).mp hhas
  have hlen1 : (dictDel c.touches fid).length + 1 = c.touches.length :=
    length_dictDel_mem _ _ hnd hmem
  have hnd1 : ((dictDel c.touches fid).map Prod.fst).Nodup := by
    rw [keys_dictDel]
    exact hnd.filter _
  have ht := up_touches c fid hhas
  refine ⟨⟨by rw [ht]; exact hnd1, by rw [ht]; omega, ?_⟩, by rw [ht]; omega⟩
  rcases up_pinch c fid hhas with hpc | ⟨hpc, h0, h1⟩
  · rw [hpc]
    exact fun hne => absurd rfl hne
  · rw [hpc, ht]
    intro _
    omega

lemma fingerMotion_step (c : Camera) (fid : Nat) (ex ey : ℝ) (s : Vec2)
    (hhas : dictHas c.touches fid = true) (hinv : TouchInv c) :
    TouchInv (c.handleFingerMotion fid ex ey s) ∧
    (c.handleFingerMotion fid ex ey s).touches.length = c.touches.length := by
  obtain ⟨hnd, hl2, hp⟩ := hinv
  have hlen1 : (dictSet c.touches fid ⟨ex * s.x, ey * s.y⟩).length
      = c.touches.length := length_dictSet_mem _ _ _ hhas
  have hnd1 : ((dictSet c.touches fid ⟨ex * s.x, ey * s.y⟩).map Prod.fst).Nodup := by
    rw [keys_dictSet_mem _ _ _ hhas]
    exact hnd
  have ht := motion_touches c fid ex ey s
  refine ⟨⟨by rw [ht]; exact hnd1, by rw [ht]; omega, ?_⟩, by rw [ht]; omega⟩
  rcases motion_pinch c fid ex ey s with hpc | ⟨h2, nd, hpc⟩
  · rw [hpc, ht]
    intro hne
    have := hp hne
    omega
  · rw [ht]
    exact fun _ => h2

/-- Admissible touch sequences: every touch-down introduces an id that is not
currently active while at most one touch is active (so at most two touches
are ever concurrent), and every touch-up / touch-motion refers to a
currently active id.  Only touch events occur. -/
def Admissible (screen : Vec2) : Camera → List Ev → Prop
  | _, [] => True
  | c, e :: rest =>
    (match e with
      | Ev.fingerDown fid _ _ =>
        dictHas c.touches fid = false ∧ c.touches.length ≤ 1
      | Ev.fingerUp fid _ _ => dictHas c.touches fid = true
      | Ev.fingerMotion fid _ _ => dictHas c.touches fid = true
      | _ => False) ∧
    Admissible screen (c.handle_event e screen) rest

lemma admissible_run (screen : Vec2) :
    ∀ (evs : List Ev) (c : Camera), Admissible screen c evs → TouchInv c →
      TouchInv (c.run evs screen) ∧
      (c.run evs screen).touches.length + countUps evs
        = c.touches.length + countDowns evs := by
  intro evs
  induction evs with
  | nil => intro c _ hinv; exact ⟨hinv, rfl⟩
  | cons e r ih =>
    intro c hadm hinv
    simp only [Admissible] at hadm
    obtain ⟨he, hrest⟩ := hadm
    rw [run_cons]
    cases e with
    | fingerDown fid ex ey =>
      obtain ⟨hhas, hlen⟩ := he
      obtain ⟨hinv1, hlen1⟩ := fingerDown_step c fid ex ey screen hhas hlen hinv
      obtain ⟨hinvr, hlenr⟩ := ih _ hrest hinv1
      refine ⟨hinvr, ?_⟩
      simp only [countUps, countDowns] at *
      have : (c.handle_event (Ev.fingerDown fid ex ey) screen).touches.length
          = c.touches.length + 1 := hlen1
      omega
    | fingerUp fid ex ey =>
      obtain ⟨hinv1, hlen1⟩ := fingerUp_step c fid ex ey he hinv
      obtain ⟨hinvr, hlenr⟩ := ih _ hrest hinv1
      refine ⟨hinvr, ?_⟩
      simp only [countUps, countDowns] at *
      have : (c.handle_event (Ev.fingerUp fid ex ey) screen).touches.length + 1
          = c.touches.length := hlen1
      omega
    | fingerMotion fid ex ey =>
      obtain ⟨hinv1, hlen1⟩ := fingerMotion_step c fid ex ey screen he hinv
      obtain ⟨hinvr, hlenr⟩ := ih _ hrest hinv1
      refine ⟨hinvr, ?_⟩
      simp only [countUps, countDowns] at *
      have : (c.handle_event (Ev.fingerMotion fid ex ey) screen).touches.length
          = c.touches.length := hlen1
      omega
    | mouseButtonDown b p => exact absurd he id
    | mouseButtonUp b p => exact absurd he id
    | mouseMotion rel => exact absurd he id
    | other => exact absurd he id

/-! ## Theorems -/

/--
C6: Pan reversibility.  For every camera state, applying `_pan_with_delta`
with a screen delta `d` and then with `-d` (the zoom is unchanged in
between, so the speed factor is the same) returns `position` exactly to its
original value.
-/
theorem c6_pan_reversible (c : Camera) (d : Vec2) :
    ((c.panWithDelta d).panWithDelta (-d)).position = c.position := by
  unfold Camera.panWithDelta
  ext <;> simp [Vec2.scale]

/--
C1: Zoom-anchor invariance.  For every camera state with positive zoom and
positive `min_zoom`, every screen anchor `A` and every requested zoom value,
the world point `w = (A - screenCenter)/zoom + position` that projected to
`A` before `_apply_zoom_around_point(new_zoom, A)` still projects exactly to
`A` afterwards: `(w - position') * zoom' + screenCenter = A`, exactly, in
real arithmetic.
-/
theorem c1_zoom_anchor_invariance (c : Camera) (A screen : Vec2) (new_zoom : ℝ)
    (hz : 0 < c.zoom) (hm : 0 < c.min_zoom) :
    Vec2.scale
        (((A - ⟨screen.x / 2, screen.y / 2⟩).sdiv c.zoom + c.position)
          - (c.applyZoomAroundPoint new_zoom A screen).position)
        (c.applyZoomAroundPoint new_zoom A screen).zoom
      + (⟨screen.x / 2, screen.y / 2⟩ : Vec2) = A := by
  have h1 : (0 : ℝ) < max c.min_zoom (min c.max_zoom new_zoom) :=
    lt_of_lt_of_le hm (le_max_left _ _)
  have hne : max c.min_zoom (min c.max_zoom new_zoom) ≠ 0 := ne_of_gt h1
  unfold Camera.applyZoomAroundPoint
  ext <;> simp [Vec2.scale, Vec2.sdiv] <;> field_simp <;> ring

/-- Witness for C1 at a concrete camera and anchor. -/
theorem c1_zoom_anchor_invariance_witness :
    0 < (Camera.init 0.0015 20 1).zoom ∧ 0 < (Camera.init 0.0015 20 1).min_zoom ∧
    Vec2.scale
        ((((⟨3, 4⟩ : Vec2) -
              (⟨(⟨800, 600⟩ : Vec2).x / 2, (⟨800, 600⟩ : Vec2).y / 2⟩ : Vec2)).sdiv
              (Camera.init 0.0015 20 1).zoom + (Camera.init 0.0015 20 1).position)
          - ((Camera.init 0.0015 20 1).applyZoomAroundPoint 0.5 ⟨3, 4⟩
              ⟨800, 600⟩).position)
        ((Camera.init 0.0015 20 1).applyZoomAroundPoint 0.5 ⟨3, 4⟩ ⟨800, 600⟩).zoom
      + (⟨(⟨800, 600⟩ : Vec2).x / 2, (⟨800, 600⟩ : Vec2).y / 2⟩ : Vec2) = ⟨3, 4⟩ :=
  ⟨by norm_num [Camera.init], by norm_num [Camera.init],
    c1_zoom_anchor_invariance (Camera.init 0.0015 20 1) ⟨3, 4⟩ ⟨800, 600⟩ 0.5
      (by norm_num [Camera.init]) (by norm_num [Camera.init])⟩

/--
C9: Event routing.  While the touch set is non-empty, every mouse event
(button down — including the scroll buttons 4 and 5 —, button up, motion)
delivered to `handle_event` leaves the entire camera state unchanged.
-/
theorem c9_mouse_ignored_while_touching (c : Camera) (screen : Vec2)
    (h : c.touches ≠ []) :
    (∀ b p, c.handle_event (.mouseButtonDown b p) screen = c) ∧
    (∀ b p, c.handle_event (.mouseButtonUp b p) screen = c) ∧
    (∀ r, c.handle_event (.mouseMotion r) screen = c) := by
  obtain ⟨a, t, ht⟩ : ∃ a t, c.touches = a :: t := by
    cases hc : c.touches with
    | nil => exact absurd hc h
    | cons a t => exact ⟨a, t, rfl⟩
  refine ⟨fun b p => ?_, fun b p => ?_, fun r => ?_⟩ <;>
    simp [Camera.handle_event, ht]

/-- Witness for C9: a camera with one active touch ignores a scroll event. -/
theorem c9_mouse_ignored_while_touching_witness :
    ((Camera.init 0.0015 20 1).handleFingerDown 0 1 2 ⟨800, 600⟩).touches ≠ [] ∧
    ((Camera.init 0.0015 20 1).handleFingerDown 0 1 2 ⟨800, 600⟩).handle_event
        (.mouseButtonDown 4 ⟨5, 6⟩) ⟨800, 600⟩
      = (Camera.init 0.0015 20 1).handleFingerDown 0 1 2 ⟨800, 600⟩ := by
  have h : ((Camera.init 0.0015 20 1).handleFingerDown 0 1 2 ⟨800, 600⟩).touches ≠ [] := by
    simp [Camera.init, Camera.handleFingerDown, dictSet, dictHas]
  exact ⟨h, (c9_mouse_ignored_while_touching _ ⟨800, 600⟩ h).1 4 ⟨5, 6⟩⟩

/--
C10: Frame effect of `update_position`.  For every body and every `dt`, at
most `angle` and `position` change; all other fields are unchanged, and in
the degenerate branch (`period_days ≤ 0` or `a_au ≤ 0`) `angle` itself is
also unchanged.
-/
theorem c10_update_position_frame (p : Planet) (dt : ℝ) :
    (p.update_position dt).planet_name = p.planet_name ∧
    (p.update_position dt).radius_km = p.radius_km ∧
    (p.update_position dt).a_au = p.a_au ∧
    (p.update_position dt).period_days = p.period_days ∧
    (p.update_position dt).color = p.color ∧
    (p.update_position dt).draw_orbit = p.draw_orbit ∧
    (p.update_position dt).fact = p.fact ∧
    (p.update_position dt).radius_px = p.radius_px ∧
    (p.update_position dt).au_to_px = p.au_to_px ∧
    (p.update_position dt).time_scale = p.time_scale ∧
    (p.update_position dt).parent = p.parent ∧
    (p.update_position dt).parent_name = p.parent_name ∧
    (p.update_position dt).image = p.image ∧
    ((p.period_days ≤ 0 ∨ p.a_au ≤ 0) → (p.update_position dt).angle = p.angle) := by
  by_cases hdeg : p.period_days ≤ 0 ∨ p.a_au ≤ 0
  · unfold Planet.update_position
    rw [if_pos hdeg]
    cases p.parent <;> simp
  · unfold Planet.update_position
    rw [if_neg hdeg]
    by_cases hT : p.period_days * 86400 = 0
    · simp only [hT, if_pos rfl]
      exact ⟨rfl, rfl, rfl, rfl, rfl, rfl, rfl, rfl, rfl, rfl, rfl, rfl, rfl,
        fun h => absurd h hdeg⟩
    · simp only [hT, if_neg hT]
      cases p.parent <;>
        exact ⟨rfl, rfl, rfl, rfl, rfl, rfl, rfl, rfl, rfl, rfl, rfl, rfl, rfl,
          fun h => absurd h hdeg⟩

/-- Witness for C10 at a degenerate body (`period_days = 0`). -/
theorem c10_update_position_frame_witness :
    ((⟨"Sol", 696000, 0, 0, (255, 255, 255), false, "", 0, 5, 1000, 20000,
        ⟨0, 0⟩, none, none, none⟩ : Planet).period_days ≤ 0 ∨
      (⟨"Sol", 696000, 0, 0, (255, 255, 255), false, "", 0, 5, 1000, 20000,
        ⟨0, 0⟩, none, none, none⟩ : Planet).a_au ≤ 0) ∧
    ((⟨"Sol", 696000, 0, 0, (255, 255, 255), false, "", 0, 5, 1000, 20000,
        ⟨0, 0⟩, none, none, none⟩ : Planet).update_position 1).angle
      = (⟨"Sol", 696000, 0, 0, (255, 255, 255), false, "", 0, 5, 1000, 20000,
        ⟨0, 0⟩, none, none, none⟩ : Planet).angle :=
  ⟨Or.inl (by norm_num),
    (c10_update_position_frame _ 1).2.2.2.2.2.2.2.2.2.2.2.2.2 (Or.inl (by norm_num))⟩

/--
C5: Degenerate orbit and parent rigidity.  For every body and every `dt`, if
`period_days ≤ 0` or `a_au ≤ 0` then `update_position(dt)` sets `position`
to `(0,0)` when there is no parent and to the parent's position otherwise;
in particular, in a frame where the parent updates first (`frameStep`), a
child with `a_au = 0` ends the frame with `position` equal to its (updated)
parent's position.
-/
theorem c5_degenerate_orbit_parent_rigidity (p q child : Planet) (dt : ℝ) :
    ((p.period_days ≤ 0 ∨ p.a_au ≤ 0) →
      (p.update_position dt).position =
        (match p.parent with
          | none => (⟨0, 0⟩ : Vec2)
          | some par => par.position)) ∧
    (child.a_au = 0 →
      ((frameStep q child dt).2).position = ((frameStep q child dt).1).position) := by
  constructor
  · intro hdeg
    unfold Planet.update_position
    rw [if_pos hdeg]
    cases p.parent <;> simp
  · intro ha
    unfold frameStep
    dsimp only
    unfold Planet.update_position
    rw [if_pos (Or.inr (by simp [ha]))]

/-- Witness for C5: a parentless degenerate body collapses to the origin, and
a child with `a_au = 0` tracks its updated parent. -/
theorem c5_degenerate_orbit_parent_rigidity_witness :
    ((0 : ℝ) ≤ 0 ∨ (0 : ℝ) ≤ 0) ∧
    (((⟨"Sol", 696000, 0, 0, (255, 255, 255), false, "", 0, 5, 1000, 20000,
        ⟨7, 8⟩, none, none, none⟩ : Planet).update_position 1).position = ⟨0, 0⟩) ∧
    ((⟨"Lua", 1737, 0, 27, (200, 200, 200), true, "", 0, 5, 1000, 20000,
        ⟨1, 2⟩, some "Terra", none, none⟩ : Planet).a_au = 0 →
      ((frameStep
          (⟨"Terra", 6371, 0, 0, (0, 0, 255), true, "", 0, 5, 1000, 20000,
            ⟨3, 4⟩, none, none, none⟩ : Planet)
          (⟨"Lua", 1737, 0, 27, (200, 200, 200), true, "", 0, 5, 1000, 20000,
            ⟨1, 2⟩, some "Terra", none, none⟩ : Planet) 1).2).position
        = ((frameStep
          (⟨"Terra", 6371, 0, 0, (0, 0, 255), true, "", 0, 5, 1000, 20000,
            ⟨3, 4⟩, none, none, none⟩ : Planet)
          (⟨"Lua", 1737, 0, 27, (200, 200, 200), true, "", 0, 5, 1000, 20000,
            ⟨1, 2⟩, some "Terra", none, none⟩ : Planet) 1).1).position) := by
  refine ⟨Or.inl le_rfl, ?_, ?_⟩
  · have h := (c5_degenerate_orbit_parent_rigidity
      (⟨"Sol", 696000, 0, 0, (255, 255, 255), false, "", 0, 5, 1000, 20000,
        ⟨7, 8⟩, none, none, none⟩ : Planet)
      (⟨"Sol", 696000, 0, 0, (255, 255, 255), false, "", 0, 5, 1000, 20000,
        ⟨7, 8⟩, none, none, none⟩ : Planet)
      (⟨"Sol", 696000, 0, 0, (255, 255, 255), false, "", 0, 5, 1000, 20000,
        ⟨7, 8⟩, none, none, none⟩ : Planet) 1).1 (Or.inl (by norm_num))
    simpa using h
  · exact (c5_degenerate_orbit_parent_rigidity
      (⟨"Terra", 6371, 0, 0, (0, 0, 255), true, "", 0, 5, 1000, 20000,
        ⟨3, 4⟩, none, none, none⟩ : Planet)
      (⟨"Terra", 6371, 0, 0, (0, 0, 255), true, "", 0, 5, 1000, 20000,
        ⟨3, 4⟩, none, none, none⟩ : Planet)
      (⟨"Lua", 1737, 0, 27, (200, 200, 200), true, "", 0, 5, 1000, 20000,
        ⟨1, 2⟩, some "Terra", none, none⟩ : Planet) 1).2

/--
C4: Zoom bounds.  Starting from a freshly constructed camera whose initial
zoom `1.0` lies within its bounds (`min_zoom ≤ 1 ≤ max_zoom`, true of the
default construction), every event sequence processed by `handle_event` —
scroll-wheel steps, pinch steps, and anything else — keeps `zoom` within
`[min_zoom, max_zoom]` inclusive; applied to every prefix, this bounds the
zoom at all times.
-/
theorem c4_zoom_bounds (mn mx zs : ℝ) (h1 : mn ≤ 1) (h2 : 1 ≤ mx)
    (evs : List Ev) (screen : Vec2) :
    mn ≤ ((Camera.init mn mx zs).run evs screen).zoom ∧
    ((Camera.init mn mx zs).run evs screen).zoom ≤ mx := by
  have h := run_zoom_bounds screen evs (Camera.init mn mx zs)
    (le_trans h1 h2) h1 h2
  exact ⟨h.2.2.1, h.2.2.2⟩

/-- Witness for C4: the default bounds with one scroll-up event. -/
theorem c4_zoom_bounds_witness :
    (0.0015 : ℝ) ≤ 1 ∧ (1 : ℝ) ≤ 20 ∧
    (0.0015 ≤ ((Camera.init 0.0015 20 1).run [.mouseButtonDown 4 ⟨10, 20⟩]
        ⟨800, 600⟩).zoom ∧
      ((Camera.init 0.0015 20 1).run [.mouseButtonDown 4 ⟨10, 20⟩]
        ⟨800, 600⟩).zoom ≤ 20) :=
  ⟨by norm_num, by norm_num,
    c4_zoom_bounds 0.0015 20 1 (by norm_num) (by norm_num)
      [.mouseButtonDown 4 ⟨10, 20⟩] ⟨800, 600⟩⟩

/--
C8 counterexample: the constructor does not enforce `min_zoom > 0`.
`Camera(min_zoom=0, max_zoom=0)` is accepted as-is, and a single scroll-up
event drives `zoom` to exactly `0` (the clamp `max(0, min(0, 0.9))`), after
which the divisions by `zoom` are by zero.
-/
theorem c8_counterexample :
    (Camera.init 0 0 1).min_zoom = 0 ∧
    ((Camera.init 0 0 1).run [.mouseButtonDown 4 ⟨0, 0⟩] ⟨800, 600⟩).zoom = 0 := by
  constructor
  · rfl
  · rw [run_cons, run_nil]
    unfold Camera.handle_event Camera.init
    norm_num [Camera.applyZoomAroundPoint]

/--
C8 amended: the constructor performs no validation, so positivity of the
zoom is conditional on the caller passing a positive `min_zoom` (as the
default `0.0015` does).  Under that hypothesis, for every event sequence the
zoom stays strictly positive — it never reaches `0` or a negative value —
so the divisions by `zoom` in the pan-speed computation and in the inverse
projection of `_apply_zoom_around_point` never divide by zero.
-/
theorem c8_zoom_positive (mn mx zs : ℝ) (hm : 0 < mn)
    (evs : List Ev) (screen : Vec2) :
    0 < ((Camera.init mn mx zs).run evs screen).zoom :=
  run_zoom_pos screen evs (Camera.init mn mx zs) hm one_pos

/-- Witness for C8 (amended) at the default `min_zoom` with one scroll-down
event. -/
theorem c8_zoom_positive_witness :
    (0 : ℝ) < 0.0015 ∧
    0 < ((Camera.init 0.0015 20 1).run [.mouseButtonDown 5 ⟨10, 20⟩]
        ⟨800, 600⟩).zoom :=
  ⟨by norm_num,
    c8_zoom_positive 0.0015 20 1 (by norm_num) [.mouseButtonDown 5 ⟨10, 20⟩]
      ⟨800, 600⟩⟩

/--
C7: the link-resolution pass performs no cycle detection.  For two records
that name each other as parents, the second pass of `load_solar_system`
installs the links as-is — body 0's parent is body 1 and body 1's parent is
body 0, a cycle — and returns normally; no error is reported to the caller
(`linkPass` is total, and the source only prints a warning for *unresolved*
names).
-/
theorem c7_cycle_not_detected :
    linkPass
        [⟨"A", 1, 1, 1, (255, 255, 255), true, "", 0, 5, 1000, 20000, ⟨0, 0⟩,
            some "B", none, none⟩,
          ⟨"B", 1, 1, 1, (255, 255, 255), true, "", 0, 5, 1000, 20000, ⟨0, 0⟩,
            some "A", none, none⟩]
      = [some 1, some 0] := by
  simp [linkPass, resolveParent, byNameIdx, List.enum, List.enumFrom, List.filter]

/--
C2 counterexample.  From a freshly constructed camera, three touch-downs
with distinct finger ids — perfectly ordinary events — leave three active
touches while `last_pinch_dist` is still set (it was set when the second
finger arrived and is not reset when the count moves from 2 to 3), so the
claim's "non-None only when exactly 2 touches are active" is false; and for
the sequence of two touch-downs reusing one finger id, `len(touches)` is 1
while downs − ups is 2, so the count equation is false as well.
-/
theorem c2_counterexample :
    (((Camera.init 0.0015 20 1).run
          [.fingerDown 0 1 2, .fingerDown 1 3 4, .fingerDown 2 5 6]
          ⟨1, 1⟩).touches.length = 3 ∧
      ((Camera.init 0.0015 20 1).run
          [.fingerDown 0 1 2, .fingerDown 1 3 4, .fingerDown 2 5 6]
          ⟨1, 1⟩).last_pinch_dist ≠ none) ∧
    (countDowns [Ev.fingerDown 0 1 2, Ev.fingerDown 0 3 4] = 2 ∧
      countUps [Ev.fingerDown 0 1 2, Ev.fingerDown 0 3 4] = 0 ∧
      ((Camera.init 0.0015 20 1).run [.fingerDown 0 1 2, .fingerDown 0 3 4]
          ⟨1, 1⟩).touches.length = 1) := by
  refine ⟨⟨?_, ?_⟩, rfl, rfl, ?_⟩ <;>
    simp [Camera.run, Camera.handle_event, Camera.handleFingerDown, Camera.init,
      dictSet, dictHas, dictValues]

/--
C2 amended: the claimed equality `len(touches) = downs − ups` and the pinch
condition hold for admissible touch sequences — every touch-down carries a
finger id that is not currently active and arrives while at most one touch
is active (so touches never exceed two), and every touch-up or touch-motion
refers to a currently active id.  Then `len(touches) + ups = downs` (so the
count equals downs − ups and is never negative) and `last_pinch_dist` is
non-None only when exactly two touches are active.  Without these
restrictions the claim fails (see the counterexample): a third finger leaves
the stale pinch baseline set, a motion event with an unknown id adds a
touch, and a reused id makes a down a no-op for the count.
-/
theorem c2_touch_count_invariant (mn mx zs : ℝ) (screen : Vec2) (evs : List Ev)
    (hadm : Admissible screen (Camera.init mn mx zs) evs) :
    ((Camera.init mn mx zs).run evs screen).touches.length + countUps evs
      = countDowns evs ∧
    (((Camera.init mn mx zs).run evs screen).last_pinch_dist ≠ none →
      ((Camera.init mn mx zs).run evs screen).touches.length = 2) := by
  have hinv0 : TouchInv (Camera.init mn mx zs) := by
    refine ⟨?_, ?_, ?_⟩ <;> simp [Camera.init, TouchInv]
  have h := admissible_run screen evs (Camera.init mn mx zs) hadm hinv0
  refine ⟨?_, h.1.2.2⟩
  have h2 := h.2
  simpa [Camera.init] using h2

/-- Witness for C2 (amended): two downs then one up, with fresh/active ids. -/
theorem c2_touch_count_invariant_witness :
    Admissible ⟨1, 1⟩ (Camera.init 0.0015 20 1)
      [.fingerDown 0 1 2, .fingerDown 1 3 4, .fingerUp 0 1 2] ∧
    (((Camera.init 0.0015 20 1).run
          [.fingerDown 0 1 2, .fingerDown 1 3 4, .fingerUp 0 1 2]
          ⟨1, 1⟩).touches.length
        + countUps [Ev.fingerDown 0 1 2, Ev.fingerDown 1 3 4, Ev.fingerUp 0 1 2]
      = countDowns [Ev.fingerDown 0 1 2, Ev.fingerDown 1 3 4, Ev.fingerUp 0 1 2] ∧
      (((Camera.init 0.0015 20 1).run
          [.fingerDown 0 1 2, .fingerDown 1 3 4, .fingerUp 0 1 2]
          ⟨1, 1⟩).last_pinch_dist ≠ none →
        ((Camera.init 0.0015 20 1).run
          [.fingerDown 0 1 2, .fingerDown 1 3 4, .fingerUp 0 1 2]
          ⟨1, 1⟩).touches.length = 2)) := by
  have hadm : Admissible ⟨1, 1⟩ (Camera.init 0.0015 20 1)
      [.fingerDown 0 1 2, .fingerDown 1 3 4, .fingerUp 0 1 2] := by
    simp [Admissible, Camera.init, Camera.handle_event, Camera.handleFingerDown,
      dictSet, dictHas, dictValues]
  exact ⟨hadm, c2_touch_count_invariant 0.0015 20 1 ⟨1, 1⟩ _ hadm⟩

/-! ### The pinch scenario of C3 -/

lemma sqrt_ten_thousand : Real.sqrt 10000 = 100 := by
  rw [show (10000 : ℝ) = 100 ^ 2 by norm_num]
  exact Real.sqrt_sq (by norm_num)

lemma sqrt_22500 : Real.sqrt 22500 = 150 := by
  rw [show (22500 : ℝ) = 150 ^ 2 by norm_num]
  exact Real.sqrt_sq (by norm_num)

/-- The camera state after two touch-downs at `(100,300)` and `(200,300)`.
The screen size is `1×1` (the fallback of `_screen_size()`), so pygame's
normalized event coordinates coincide with screen coordinates. -/
def c3Start : Camera :=
  { min_zoom := 0.0015, max_zoom := 20, zoom_sensitivity := 1,
    position := ⟨0, 0⟩, zoom := 1, pan_enabled := true, dragging := true,
    last_mouse_pos := ⟨100, 300⟩,
    touches := [(0, ⟨100, 300⟩), (1, ⟨200, 300⟩)],
    last_pinch_dist := some 100, is_dragging := true }

/-- `c3Start` with the first touch already moved to `(50,300)`: the state on
which the pinch step computes its midpoint anchor. -/
def c3Mid : Camera :=
  { c3Start with touches := [(0, ⟨50, 300⟩), (1, ⟨200, 300⟩)] }

lemma c3_downs_eq :
    (Camera.init 0.0015 20 1).run [.fingerDown 0 100 300, .fingerDown 1 200 300]
        ⟨1, 1⟩
      = c3Start := by
  norm_num [Camera.run, Camera.handle_event, Camera.handleFingerDown, Camera.init,
    dictSet, dictHas, dictValues, Vec2.distance_to, c3Start, sqrt_ten_thousand]

lemma c3_motion_eq :
    c3Start.handle_event (.fingerMotion 0 50 300) ⟨1, 1⟩
      = { c3Mid.applyZoomAroundPoint (c3Mid.zoom * 0.9) ⟨125, 300⟩ ⟨1, 1⟩ with
          last_pinch_dist := some 150 } := by
  norm_num [Camera.handle_event, Camera.handleFingerMotion, c3Start, c3Mid,
    dictGet, dictSet, dictHas, dictValues, Vec2.distance_to, sqrt_22500,
    Camera.applyZoomAroundPoint, Vec2.sdiv]

/--
C3 counterexample: the zoom step is NOT anchored at the pre-move midpoint
`(150,300)`.  In `_handle_finger_motion` the moved finger's position is
stored into the touch dictionary *before* the midpoint is computed, so the
anchor is the post-move midpoint `(125,300)`; anchoring at `(150,300)` would
produce a different camera position than the code does.
-/
theorem c3_counterexample :
    ((Camera.init 0.0015 20 1).run
        [.fingerDown 0 100 300, .fingerDown 1 200 300, .fingerMotion 0 50 300]
        ⟨1, 1⟩).position
      ≠ (c3Mid.applyZoomAroundPoint (c3Mid.zoom * 0.9) ⟨150, 300⟩ ⟨1, 1⟩).position := by
  have hrun : (Camera.init 0.0015 20 1).run
      [.fingerDown 0 100 300, .fingerDown 1 200 300, .fingerMotion 0 50 300] ⟨1, 1⟩
      = ((Camera.init 0.0015 20 1).run
          [.fingerDown 0 100 300, .fingerDown 1 200 300] ⟨1, 1⟩).handle_event
        (.fingerMotion 0 50 300) ⟨1, 1⟩ := rfl
  rw [hrun, c3_downs_eq, c3_motion_eq]
  intro h
  have hx := congrArg Vec2.x h
  norm_num [Camera.applyZoomAroundPoint, c3Mid, c3Start, Vec2.sdiv] at hx

/--
C3 amended: with exactly two active touches at `(100,300)` and `(200,300)`
and pinch baseline `100`, a touch-motion moving the first touch to `(50,300)`
(new distance `150`, ratio `1.5 > 1.01`) produces exactly one zoom-in step
(`zoom *= 0.9`, giving `0.9`) applied via `_apply_zoom_around_point` anchored
at the *post-move* midpoint `(125,300)` (the touch dictionary is updated
before the midpoint is computed), and the stored baseline becomes `150`;
with screen `1×1` the camera position becomes `(-83/6, -599/18)`.
-/
theorem c3_pinch_scenario_amended :
    (Camera.init 0.0015 20 1).run
        [.fingerDown 0 100 300, .fingerDown 1 200 300, .fingerMotion 0 50 300]
        ⟨1, 1⟩
      = { c3Mid.applyZoomAroundPoint (c3Mid.zoom * 0.9) ⟨125, 300⟩ ⟨1, 1⟩ with
          last_pinch_dist := some 150 } ∧
    ((Camera.init 0.0015 20 1).run
        [.fingerDown 0 100 300, .fingerDown 1 200 300, .fingerMotion 0 50 300]
        ⟨1, 1⟩).zoom = 0.9 ∧
    ((Camera.init 0.0015 20 1).run
        [.fingerDown 0 100 300, .fingerDown 1 200 300, .fingerMotion 0 50 300]
        ⟨1, 1⟩).last_pinch_dist = some 150 ∧
    ((Camera.init 0.0015 20 1).run
        [.fingerDown 0 100 300, .fingerDown 1 200 300, .fingerMotion 0 50 300]
        ⟨1, 1⟩).position = ⟨-83 / 6, -599 / 18⟩ := by
  have hrun : (Camera.init 0.0015 20 1).run
      [.fingerDown 0 100 300, .fingerDown 1 200 300, .fingerMotion 0 50 300] ⟨1, 1⟩
      = ((Camera.init 0.0015 20 1).run
          [.fingerDown 0 100 300, .fingerDown 1 200 300] ⟨1, 1⟩).handle_event
        (.fingerMotion 0 50 300) ⟨1, 1⟩ := rfl
  rw [hrun, c3_downs_eq, c3_motion_eq]
  refine ⟨rfl, ?_, rfl, ?_⟩
  · norm_num [Camera.applyZoomAroundPoint, c3Mid, c3Start]
  · norm_num [Camera.applyZoomAroundPoint, c3Mid, c3Start, Vec2.sdiv]

end SolarSim
